import Mathlib

/-!
Verification development for the farrow HTTP routing library: data model and
operations of the schema validation engine, pattern matcher, router dispatch,
pipeline/context engine, response merging, and struct helpers, with theorems
checking the documented behaviour.

The repository ships the tests (`http.test.ts`, `router.test.ts`) and the
schema helpers (`helper.ts`); the engine implementations themselves
(schema `validate`, pattern matcher, router, pipeline/context, response
`merge`) are not part of the provided sources, so those operations are
modelled from the specification document, as marked on each definition.
`pickStruct`/`omitStruct` are translated directly from `helper.ts`.
-/

namespace Farrow

/-- A loosely-typed JSON-style value as it flows through request validation.
Numbers are modelled as rationals (JS numbers in the tests are finite
decimals, exactly representable). -/
inductive JsonValue where
  | num (q : ℚ)
  | str (s : String)
  | bool (b : Bool)
  | null
deriving DecidableEq, Repr

/-- Is a character a decimal digit. -/
def isDigitCh (c : Char) : Bool :=
  '0' ≤ c && c ≤ '9'

/-- Numeric value of a digit character. -/
def digitVal (c : Char) : Nat :=
  c.toNat - '0'.toNat

/-- Value of a list of digit characters read in base 10. -/
def digitsVal (cs : List Char) : Nat :=
  cs.foldl (fun acc c => acc * 10 + digitVal c) 0

/-- Modelled from the spec: parsing of an unsigned decimal numeral
(`"123"`, `"123.456"`), the "numeric string" accepted by Number coercion
(§4.1). Returns `none` on any non-numeric input. The value of
`"i.f"` with `k` fractional digits is `(i * 10 ^ k + f) / 10 ^ k`. -/
def parseUnsigned (cs : List Char) : Option ℚ :=
  match cs.span isDigitCh with
  | (intDigits, rest) =>
    if intDigits.isEmpty then none
    else
      match rest with
      | [] => some (mkRat (Int.ofNat (digitsVal intDigits)) 1)
      | '.' :: fracs =>
        if fracs.isEmpty || !(fracs.all isDigitCh) then none
        else some (mkRat (Int.ofNat (digitsVal intDigits * 10 ^ fracs.length + digitsVal fracs))
          (10 ^ fracs.length))
      | _ => none

/-- Modelled from the spec: the numeric-string test used by Number coercion,
with an optional leading minus sign (§4.1). -/
def parseNumString (s : String) : Option ℚ :=
  match s.data with
  | [] => none
  | '-' :: rest => (parseUnsigned rest).map (fun q => mkRat (-q.num) q.den)
  | cs => parseUnsigned cs

/-- Truncation of a rational toward zero, as used by `Int` coercion
("Number-coerce then truncate toward zero", §4.1). `Int.tdiv` truncates
toward zero and the denominator of a `Rat` is positive. -/
def truncToZero (q : ℚ) : ℚ :=
  ((Int.tdiv q.num (Int.ofNat q.den) : ℤ) : ℚ)

mutual
/-- Modelled from the spec: the tagged-variant `TypeDescriptor` of the
schema type system (§3): primitives `Number/String/Boolean/Int/Float/ID`,
`Literal(exact value)`, `Nullable(inner)`, `Strict(inner)`, and
`Union(ordered non-empty list of branches)`. Branch lists are a mutually
defined list type so that validation is structurally recursive. -/
inductive Typ where
  | number
  | int
  | float
  | id
  | str
  | boolean
  | literal (v : JsonValue)
  | nullable (t : Typ)
  | strict (t : Typ)
  | union (ts : TypList)

/-- Ordered list of union branches. -/
inductive TypList where
  | nil
  | cons (t : Typ) (ts : TypList)
end

/-- Modelled from the spec: the first pass of union validation — literal
branches are compared for exact equality before typed branches are
attempted (§4.1). -/
def tryLiterals (v : JsonValue) : TypList → Option JsonValue
  | .nil => none
  | .cons (.literal w) rest => if v = w then some w else tryLiterals v rest
  | .cons _ rest => tryLiterals v rest

mutual
/-- Modelled from the spec: `validate(type, rawValue)` of the schema type
system (§4.1). The `strict` flag records an enclosing `Strict`, which
disables string-to-primitive coercion. Number accepts a number or numeric
string and coerces to float; Int additionally truncates toward zero; Float
keeps the coerced float; Boolean accepts a boolean or exactly the strings
`"true"`/`"false"`; String passes strings through; ID accepts any non-empty
string; Literal compares for exact equality; Nullable lets null through
without invoking the inner type; Union tries literal branches for exact
equality first, then all branches left-to-right, returning the first
success. Failure is `none`. -/
def validate (strict : Bool) : Typ → JsonValue → Option JsonValue
  | .number, .num q => some (.num q)
  | .number, .str s => if strict then none else (parseNumString s).map .num
  | .number, _ => none
  | .float, .num q => some (.num q)
  | .float, .str s => if strict then none else (parseNumString s).map .num
  | .float, _ => none
  | .int, .num q => some (.num (truncToZero q))
  | .int, .str s => if strict then none else (parseNumString s).map (fun q => .num (truncToZero q))
  | .int, _ => none
  | .boolean, .bool b => some (.bool b)
  | .boolean, .str s =>
    if strict then none
    else if s = "true" then some (.bool true)
    else if s = "false" then some (.bool false)
    else none
  | .boolean, _ => none
  | .str, .str s => some (.str s)
  | .str, _ => none
  | .id, .str s => if s.isEmpty then none else some (.str s)
  | .id, _ => none
  | .literal w, v => if v = w then some w else none
  | .nullable _, .null => some .null
  | .nullable t, v => validate strict t v
  | .strict t, v => validate true t v
  | .union ts, v =>
    match tryLiterals v ts with
    | some w => some w
    | none => validateBranches strict ts v

/-- Modelled from the spec: the second pass of union validation — branches
tried left-to-right, first success returned (§4.1). -/
def validateBranches (strict : Bool) : TypList → JsonValue → Option JsonValue
  | .nil, _ => none
  | .cons t ts, v =>
    match validate strict t v with
    | some w => some w
    | none => validateBranches strict ts v
end

/-- The union `number|boolean|string` used by the route pattern
`<arg:number|boolean|string>` in the tests. -/
def numBoolStr : Typ :=
  .union (.cons .number (.cons .boolean (.cons .str .nil)))

/-- A raw capture produced by the pattern matcher before validation:
a single path segment, or the ordered list of segments consumed by a
repetition modifier. -/
inductive RawValue where
  | str (s : String)
  | list (xs : List String)
deriving DecidableEq, Repr

/-- Modifier on a typed pattern segment (§3): none, `?` (zero-or-one),
`*` (zero-or-more), `+` (one-or-more). -/
inductive Modifier where
  | plain
  | optional
  | zeroOrMore
  | oneOrMore
deriving DecidableEq, Repr

/-- A compiled path segment (§3): a literal, or a typed capture with a
modifier. -/
inductive Segment where
  | lit (text : String)
  | param (name : String) (t : Typ) (m : Modifier)

/-- A compiled query constraint (§3): a static required value, or a typed
dynamic capture. -/
inductive QueryConstraint where
  | staticValue (v : String)
  | dynamicParam (t : Typ)

/-- Association-list lookup (first entry with the given key). -/
def getAssoc {κ α : Type} [DecidableEq κ] (l : List (κ × α)) (k : κ) : Option α :=
  match l with
  | [] => none
  | (k', v) :: rest => if k' = k then some v else getAssoc rest k

/-- Association-list update: replaces the first entry with the given key,
or appends a new entry. -/
def setAssoc {κ α : Type} [DecidableEq κ] (l : List (κ × α)) (k : κ) (v : α) : List (κ × α) :=
  match l with
  | [] => [(k, v)]
  | (k', v') :: rest => if k' = k then (k, v) :: rest else (k', v') :: setAssoc rest k v

/-- Modelled from the spec: positional walk of pathname segments against
declared segments (§4.3). Literal segments require exact equality;
unmodified typed segments require exactly one present segment; `?`
consumes one segment if present else none, leaving the field absent;
`*` captures all remaining segments as an ordered list, the field absent
(not an empty list) when none remain; `+` captures all remaining segments
and fails when none remain. Extra unconsumed trailing segments, or a
required segment missing, fail the match. -/
def matchSegments : List Segment → List String → Option (List (String × RawValue))
  | [], [] => some []
  | [], _ :: _ => none
  | .lit t :: rest, s :: ss => if s = t then matchSegments rest ss else none
  | .lit _ :: _, [] => none
  | .param n _ .plain :: rest, s :: ss => (matchSegments rest ss).map (fun caps => (n, .str s) :: caps)
  | .param _ _ .plain :: _, [] => none
  | .param n _ .optional :: rest, s :: ss => (matchSegments rest ss).map (fun caps => (n, .str s) :: caps)
  | .param _ _ .optional :: rest, [] => matchSegments rest []
  | .param n _ .zeroOrMore :: rest, ss =>
    if ss.isEmpty then matchSegments rest []
    else (matchSegments rest []).map (fun caps => (n, .list ss) :: caps)
  | .param n _ .oneOrMore :: rest, ss =>
    if ss.isEmpty then none
    else (matchSegments rest []).map (fun caps => (n, .list ss) :: caps)

/-- Modelled from the spec: query-constraint matching (§4.3). A static
constraint requires the key present with exactly the declared value; a
mismatch or absence fails the whole match. A dynamic constraint only
requires key presence here, capturing the raw value; type checking is
deferred to the request validator. Undeclared query keys are ignored. -/
def matchQuery : List (String × QueryConstraint) → List (String × String) →
    Option (List (String × RawValue))
  | [], _ => some []
  | (k, .staticValue v) :: rest, q =>
    match getAssoc q k with
    | some w => if w = v then matchQuery rest q else none
    | none => none
  | (k, .dynamicParam _) :: rest, q =>
    match getAssoc q k with
    | some w => (matchQuery rest q).map (fun caps => (k, .str w) :: caps)
    | none => none

/-- Modelled from the spec: a compiled pattern (§3) — ordered path
segments plus query constraints. -/
structure CompiledPattern where
  segments : List Segment
  queryConstraints : List (String × QueryConstraint)

/-- Splits a character list on `'/'`, accumulating the current segment in
reverse. -/
def splitSlashAux : List Char → List Char → List (List Char)
  | [], acc => [acc.reverse]
  | '/' :: rest, acc => acc.reverse :: splitSlashAux rest []
  | c :: rest, acc => splitSlashAux rest (c :: acc)

/-- Modelled from the spec: pathname splitting (§4.3) — `/`-separated,
ignoring a single leading and trailing empty segment produced by slash
normalization. -/
def splitPath (p : String) : List String :=
  let parts := (splitSlashAux p.data []).map (fun cs => String.mk cs)
  let parts := match parts with
    | "" :: rest => rest
    | other => other
  match parts.reverse with
  | "" :: rest => rest.reverse
  | _ => parts

/-- Modelled from the spec: matching a pathname and query against a
compiled pattern (§4.3), producing raw captures or `none`. -/
def matchPattern (p : CompiledPattern) (pathname : String) (query : List (String × String)) :
    Option (List (String × RawValue) × List (String × RawValue)) :=
  match matchSegments p.segments (splitPath pathname) with
  | none => none
  | some pcaps =>
    match matchQuery p.queryConstraints query with
    | none => none
    | some qcaps => some (pcaps, qcaps)

/-- The store of one active run: context-cell identity to current value. -/
def ContextStore : Type := List (Nat × JsonValue)

/-- Modelled from the spec: the execution-scoped context state of the
pipeline engine (§5, §9) — a store keyed per active run, carried through
the continuation chain, never a single process-wide mutable slot. -/
def Engine : Type := List (Nat × ContextStore)

/-- Modelled from the spec: `run` binds a fresh store for the run's
duration from the values declared by `create(value)` (§4.5). -/
def startRun (e : Engine) (runId : Nat) (bindings : ContextStore) : Engine :=
  setAssoc e runId bindings

/-- Modelled from the spec: `Context.use()` reads the cell's current value
within the given active run (§4.5); `none` models the usage error of
reading outside an active run. -/
def readCtx (e : Engine) (runId cell : Nat) : Option JsonValue :=
  match getAssoc e runId with
  | none => none
  | some store => getAssoc store cell

/-- Modelled from the spec: assignment to `ctx.value` inside the given
active run (§4.5); a no-op outside an active run. -/
def writeCtx (e : Engine) (runId cell : Nat) (v : JsonValue) : Engine :=
  match getAssoc e runId with
  | none => e
  | some store => setAssoc e runId (setAssoc store cell v)

/-- The result of one pipeline run: a produced output, or the distinct
unhandled-request error used when no handler produced an output. -/
inductive PipeResult (β : Type) where
  | ok (b : β)
  | unhandled
deriving DecidableEq, Repr

/-- A pipeline handler `(input, next) → output` (§4.5). -/
def Middleware (α β : Type) : Type :=
  α → (α → PipeResult β) → PipeResult β

/-- Modelled from the spec: `run(input)` executes the registered handlers
in registration order, each receiving the current input and the `next`
continuation over the remaining chain; when the chain is exhausted without
any handler producing an output, the run rejects with the distinct
unhandled-request error (§4.5, §6). -/
def runPipeline {α β : Type} (ms : List (Middleware α β)) (input : α) : PipeResult β :=
  match ms with
  | [] => .unhandled
  | m :: rest => m input (fun a => runPipeline rest a)

/-- Modelled from the spec: one router registration (§4.3) — a pattern
match producing raw captures, the registration's own schema validation,
and its handler chain. -/
structure Registration (Req Cap Val Res : Type) where
  pmatch : Req → Option Cap
  check : Cap → Except String Val
  handler : Val → Res

/-- The outcome of router dispatch for one request: a handled response, a
validation failure of the committed registration, or no match at all. -/
inductive RouterOutcome (Res : Type) where
  | matched (r : Res)
  | failed (e : String)
  | noMatch
deriving DecidableEq, Repr

/-- Modelled from the spec: route selection (§4.3) — registrations are
tried in registration order; the first whose pattern matches is committed;
its schema validation is then run and a validation failure fails the
request without falling through; only a pattern mismatch moves on to the
next registration. -/
def runRouter {Req Cap Val Res : Type} :
    List (Registration Req Cap Val Res) → Req → RouterOutcome Res
  | [], _ => .noMatch
  | reg :: rest, req =>
    match reg.pmatch req with
    | none => runRouter rest req
    | some cap =>
      match reg.check cap with
      | .error e => .failed e
      | .ok v => .matched (reg.handler v)

/-- A response body, one of the tagged variants relevant here (§6). -/
inductive BodyValue where
  | text (s : String)
  | html (s : String)
  | json (v : JsonValue)
  | empty
deriving DecidableEq, Repr

/-- Modelled from the spec: the shared response value (§6) — a body
variant plus metadata (status, headers, cookies, vary). -/
structure ResponseInfo where
  status : Option Nat := none
  headers : List (String × String) := []
  cookies : List (String × String) := []
  vary : List String := []
  body : Option BodyValue := none
deriving DecidableEq, Repr

/-- `Response.text(s)`: a response whose body is the text variant. -/
def textResponse (s : String) : ResponseInfo :=
  { body := some (.text s) }

/-- Union of metadata entry lists with the second list's entries taking
precedence on key conflicts: entries of `ys` first, then the entries of
`xs` whose keys `ys` does not declare. -/
def mergeEntries (xs ys : List (String × String)) : List (String × String) :=
  ys ++ xs.filter (fun p => !(ys.any (fun p' => decide (p'.1 = p.1))))

/-- Modelled from the spec: `merge(a, b)` on responses (§6) — metadata
entries are unioned with `b`'s taking precedence on key conflicts, and the
body is `b`'s if `b` set one, else `a`'s. -/
def merge (a b : ResponseInfo) : ResponseInfo where
  status := b.status.or a.status
  headers := mergeEntries a.headers b.headers
  cookies := mergeEntries a.cookies b.cookies
  vary := a.vary ++ b.vary
  body := b.body.or a.body

/-- A `StructType` as consumed by the helpers of `helper.ts`: its ordered
declared field descriptors (`instance.descriptors`). -/
structure StructSchema where
  descriptors : List (String × Typ)

/-- `pickStruct(Ctor, keys)` from `helper.ts`: walks the declared
descriptors in declaration order and keeps those whose name occurs in
`keys`, wrapping the result in a new `Struct`. -/
def pickStruct (T : StructSchema) (keys : List String) : StructSchema :=
  ⟨T.descriptors.filter (fun p => decide (p.1 ∈ keys))⟩

/-- `omitStruct(Ctor, keys)` from `helper.ts`: walks the declared
descriptors in declaration order and keeps those whose name does not occur
in `keys`, wrapping the result in a new `Struct`. -/
def omitStruct (T : StructSchema) (keys : List String) : StructSchema :=
  ⟨T.descriptors.filter (fun p => !(decide (p.1 ∈ keys)))⟩

/-! ### Association-list lemmas -/

theorem getAssoc_setAssoc_same {κ α : Type} [DecidableEq κ] (l : List (κ × α)) (k : κ) (v : α) :
    getAssoc (setAssoc l k v) k = some v := by
  induction l with
  | nil => simp [getAssoc, setAssoc]
  | cons p rest ih =>
    obtain ⟨k', v'⟩ := p
    by_cases h : k' = k
    · simp [setAssoc, getAssoc, h]
    · simp [setAssoc, getAssoc, h, ih]

theorem getAssoc_setAssoc_other {κ α : Type} [DecidableEq κ] (l : List (κ × α)) (k k' : κ)
    (v : α) (h : k ≠ k') : getAssoc (setAssoc l k v) k' = getAssoc l k' := by
  induction l with
  | nil => simp [getAssoc, setAssoc, h]
  | cons p rest ih =>
    obtain ⟨k₀, v₀⟩ := p
    by_cases h₀ : k₀ = k
    · subst h₀; simp [setAssoc, getAssoc, h]
    · simp [setAssoc, getAssoc, h₀, ih]

theorem getAssoc_append_some {κ α : Type} [DecidableEq κ] (l l' : List (κ × α)) (k : κ) (v : α)
    (h : getAssoc l k = some v) : getAssoc (l ++ l') k = some v := by
  induction l with
  | nil => simp [getAssoc] at h
  | cons p rest ih =>
    obtain ⟨k₀, v₀⟩ := p
    by_cases h₀ : k₀ = k
    · simp_all [getAssoc]
    · simp only [getAssoc, List.cons_append, if_neg h₀] at h ⊢
      exact ih h

theorem getAssoc_append_none {κ α : Type} [DecidableEq κ] (l l' : List (κ × α)) (k : κ)
    (h : getAssoc l k = none) : getAssoc (l ++ l') k = getAssoc l' k := by
  induction l with
  | nil => simp
  | cons p rest ih =>
    obtain ⟨k₀, v₀⟩ := p
    by_cases h₀ : k₀ = k
    · simp [getAssoc, h₀] at h
    · simp only [getAssoc, List.cons_append, if_neg h₀] at h ⊢
      exact ih h

/-! ### C1 — context cells are keyed per active run -/

/-- C1: a Context cell declared with `create(value)` is bound freshly for
each run: a run's initial read sees the value bound by `create` for that
run, a mutation inside a run is observable in that run, a mutation inside
one run is never observable in any other run, and a later run that rebinds
the cell again reads its own `create` value, not the earlier mutation. -/
theorem context_isolation_per_run (e : Engine) (r r' c c' : Nat) (v : JsonValue)
    (bindings : ContextStore) :
    (readCtx (startRun e r bindings) r c = getAssoc bindings c)
    ∧ (∀ store, getAssoc e r = some store → readCtx (writeCtx e r c v) r c = some v)
    ∧ (r ≠ r' → readCtx (writeCtx e r c v) r' c' = readCtx e r' c')
    ∧ (readCtx (startRun (writeCtx e r c v) r bindings) r c = getAssoc bindings c) := by
  refine ⟨?_, ?_, ?_, ?_⟩
  · show readCtx (setAssoc e r bindings) r c = getAssoc bindings c
    unfold readCtx
    rw [getAssoc_setAssoc_same]
  · intro store hstore
    unfold writeCtx readCtx
    rw [hstore]
    simp only [getAssoc_setAssoc_same]
  · intro hne
    unfold writeCtx readCtx
    cases hstore : getAssoc e r with
    | none => rfl
    | some store => rw [getAssoc_setAssoc_other _ _ _ _ hne]
  · show readCtx (setAssoc (writeCtx e r c v) r bindings) r c = getAssoc bindings c
    unfold readCtx
    rw [getAssoc_setAssoc_same]

/-- Witness for C1 at a concrete engine: run 0 mutates cell 7, run 1 still
reads its own value, and run 0 started again over the mutated engine reads
the freshly bound value. -/
theorem context_isolation_per_run_witness :
    (readCtx (writeCtx [(0, [(7, JsonValue.str "a")]), (1, [(7, JsonValue.str "b")])] 0 7
        (JsonValue.str "mutated")) 1 7 = some (JsonValue.str "b"))
    ∧ (readCtx (startRun (writeCtx [(0, [(7, JsonValue.str "a")]), (1, [(7, JsonValue.str "b")])]
        0 7 (JsonValue.str "mutated")) 0 [(7, JsonValue.str "fresh")]) 0 7
        = some (JsonValue.str "fresh")) := by
  constructor
  · exact ((context_isolation_per_run [(0, [(7, JsonValue.str "a")]), (1, [(7, JsonValue.str "b")])]
      0 1 7 7 (JsonValue.str "mutated") []).2.2.1 (by decide)).trans (by decide)
  · exact ((context_isolation_per_run [(0, [(7, JsonValue.str "a")]), (1, [(7, JsonValue.str "b")])]
      0 1 7 7 (JsonValue.str "mutated") [(7, JsonValue.str "fresh")]).2.2.2).trans (by decide)

/-! ### C9 — a pipeline with no output-producing handler rejects -/

/-- C9: if every handler in the chain calls `next` through to the end
(possibly replacing the input) — in particular when the chain is empty —
then `run(input)` rejects with the distinct unhandled-request error and
never returns an output value. -/
theorem pipeline_rejects_unhandled {α β : Type} (ms : List (Middleware α β)) (input : α)
    (h : ∀ m ∈ ms, ∀ (a : α) (k : α → PipeResult β), ∃ a', m a k = k a') :
    runPipeline ms input = PipeResult.unhandled
    ∧ ∀ b : β, runPipeline ms input ≠ PipeResult.ok b := by
  have main : ∀ (l : List (Middleware α β)), (∀ m ∈ l, ∀ a k, ∃ a', m a k = k a') →
      ∀ a₀, runPipeline l a₀ = PipeResult.unhandled := by
    intro l
    induction l with
    | nil => intro _ a₀; rfl
    | cons m rest ih =>
      intro hl a₀
      obtain ⟨a', ha'⟩ := hl m (List.mem_cons_self m rest) a₀ (fun a => runPipeline rest a)
      show m a₀ (fun a => runPipeline rest a) = PipeResult.unhandled
      rw [ha']
      exact ih (fun m' hm' => hl m' (List.mem_cons_of_mem m hm')) a'
  refine ⟨main ms h input, ?_⟩
  intro b hb
  rw [main ms h input] at hb
  exact PipeResult.noConfusion hb

/-- Witness for C9: a two-handler chain where both handlers call through
(the second with a replacement input) rejects with the unhandled error. -/
theorem pipeline_rejects_unhandled_witness :
    runPipeline [(fun a k => k a : Middleware Nat Nat), (fun a k => k (a + 1))] 0
      = PipeResult.unhandled := by
  refine (pipeline_rejects_unhandled _ 0 ?_).1
  intro m hm a k
  rcases List.mem_cons.mp hm with h | h
  · exact ⟨a, by rw [h]⟩
  · have h' := List.mem_singleton.mp h
    exact ⟨a + 1, by rw [h']⟩

/-! ### C2 — a pattern match commits; only a mismatch falls through -/

theorem runRouter_skip_noMatch {Req Cap Val Res : Type}
    (pre rest : List (Registration Req Cap Val Res)) (req : Req)
    (h : ∀ r ∈ pre, r.pmatch req = none) :
    runRouter (pre ++ rest) req = runRouter rest req := by
  induction pre with
  | nil => rfl
  | cons r pre ih =>
    have hr : r.pmatch req = none := h r (List.mem_cons_self r pre)
    show runRouter (r :: (pre ++ rest)) req = runRouter rest req
    simp only [runRouter, hr]
    exact ih (fun r' h' => h r' (List.mem_cons_of_mem r h'))

/-- C2: registrations are tried in registration order; the first whose
pattern matches is committed — if its schema validation fails the whole
run fails with that validation error, regardless of the registrations
after it, and if validation succeeds its handler's output is the result;
a registration whose pattern does not match is skipped in favour of the
rest of the list. -/
theorem router_first_match_commits {Req Cap Val Res : Type}
    (pre post : List (Registration Req Cap Val Res)) (reg : Registration Req Cap Val Res)
    (req : Req) (cap : Cap) :
    ((∀ r ∈ pre, r.pmatch req = none) → reg.pmatch req = some cap →
      ((∀ e, reg.check cap = Except.error e →
        runRouter (pre ++ reg :: post) req = RouterOutcome.failed e)
       ∧ (∀ v, reg.check cap = Except.ok v →
        runRouter (pre ++ reg :: post) req = RouterOutcome.matched (reg.handler v))))
    ∧ (reg.pmatch req = none → runRouter (reg :: post) req = runRouter post req) := by
  constructor
  · intro hpre hm
    have hskip := runRouter_skip_noMatch pre (reg :: post) req hpre
    constructor
    · intro e he
      rw [hskip]
      simp only [runRouter, hm, he]
    · intro v hv
      rw [hskip]
      simp only [runRouter, hm, hv]
  · intro hnone
    simp only [runRouter, hnone]

/-- Witness for C2: a first registration whose pattern does not match the
request, a second whose pattern matches but whose validation fails, and a
third that would match and succeed — the run fails with the second
registration's validation error instead of reaching the third. -/
theorem router_first_match_commits_witness :
    runRouter ([⟨fun r => if r = 0 then some r else none, fun c => Except.ok c, fun v => v⟩] ++
      (⟨fun r => some r, fun _ => Except.error "invalid", fun v => v⟩ :
        Registration Nat Nat Nat Nat) ::
      [⟨fun r => some r, fun c => Except.ok c, fun v => v + 100⟩]) 5
      = RouterOutcome.failed "invalid" := by
  refine ((router_first_match_commits _ _ _ 5 5).1 ?_ rfl).1 "invalid" rfl
  intro r hr
  have h' := List.mem_singleton.mp hr
  rw [h']
  rfl

/-! ### C4 — segment modifiers `?`, `*`, `+` -/

/-- C4: a `?` segment consumes one path segment when present and leaves
the field absent otherwise; a `*` segment captures all remaining segments
as an ordered list, the field absent (not an empty list) when none remain;
a `+` segment captures all remaining segments as a non-empty list and
fails the match when none remain — including on the concrete routes of the
modifier tests. -/
theorem modifier_semantics (n : String) (t : Typ) (rest : List Segment) (s : String)
    (ss : List String) :
    (matchSegments (Segment.param n t .optional :: rest) (s :: ss)
      = (matchSegments rest ss).map (fun caps => (n, RawValue.str s) :: caps))
    ∧ (matchSegments (Segment.param n t .optional :: rest) [] = matchSegments rest [])
    ∧ (matchSegments [Segment.param n t .zeroOrMore] ss
      = some (if ss.isEmpty then [] else [(n, RawValue.list ss)]))
    ∧ (matchSegments [Segment.param n t .oneOrMore] ss
      = if ss.isEmpty then none else some [(n, RawValue.list ss)])
    ∧ (matchSegments [Segment.lit "optional", Segment.param "name" Typ.str Modifier.optional]
        (splitPath "/optional") = some [])
    ∧ (matchSegments [Segment.lit "zero", Segment.lit "or", Segment.lit "more",
        Segment.param "name" Typ.str Modifier.zeroOrMore] (splitPath "/zero/or/more")
      = some [])
    ∧ (matchSegments [Segment.lit "zero", Segment.lit "or", Segment.lit "more",
        Segment.param "name" Typ.str Modifier.zeroOrMore] (splitPath "/zero/or/more/abc/efg")
      = some [("name", RawValue.list ["abc", "efg"])])
    ∧ (matchSegments [Segment.lit "one", Segment.lit "or", Segment.lit "more",
        Segment.param "name" Typ.str Modifier.oneOrMore] (splitPath "/one/or/more")
      = none) := by
  refine ⟨rfl, rfl, ?_, ?_, by decide, by decide, by decide, by decide⟩
  · cases ss <;> rfl
  · cases ss <;> rfl

/-- Witness for C4: an optional segment with nothing left to consume
leaves the field absent and the match succeeds. -/
theorem modifier_semantics_witness :
    matchSegments [Segment.param "name" Typ.str Modifier.optional] [] = some [] :=
  ((modifier_semantics "name" Typ.str [] "x" []).2.1).trans (by decide)

/-! ### C8 — static query constraints -/

theorem matchQuery_static_mem (cs : List (String × QueryConstraint))
    (q : List (String × String)) (k : String) (v : String)
    (hmem : (k, QueryConstraint.staticValue v) ∈ cs) (hsome : matchQuery cs q ≠ none) :
    getAssoc q k = some v := by
  induction cs with
  | nil => simp at hmem
  | cons c rest ih =>
    obtain ⟨k', qc⟩ := c
    rcases List.mem_cons.mp hmem with heq | hmem'
    · cases heq
      cases hga : getAssoc q k with
      | none => simp [matchQuery, hga] at hsome
      | some w =>
        by_cases hwv : w = v
        · rw [← hwv]
        · simp [matchQuery, hga, hwv] at hsome
    · cases qc with
      | staticValue v' =>
        cases hga : getAssoc q k' with
        | none => simp [matchQuery, hga] at hsome
        | some w =>
          by_cases hwv : w = v'
          · apply ih hmem'
            simpa [matchQuery, hga, hwv] using hsome
          · simp [matchQuery, hga, hwv] at hsome
      | dynamicParam t =>
        cases hga : getAssoc q k' with
        | none => simp [matchQuery, hga] at hsome
        | some w =>
          apply ih hmem'
          simpa [matchQuery, hga, Option.map_eq_none'] using hsome

theorem matchQuery_append_extra (cs : List (String × QueryConstraint))
    (q extra : List (String × String)) (r : List (String × RawValue))
    (h : matchQuery cs q = some r) : matchQuery cs (q ++ extra) = some r := by
  induction cs generalizing r with
  | nil => simpa [matchQuery] using h
  | cons c rest ih =>
    obtain ⟨k, qc⟩ := c
    cases qc with
    | staticValue v =>
      cases hga : getAssoc q k with
      | none => simp [matchQuery, hga] at h
      | some w =>
        simp only [matchQuery, hga] at h
        by_cases hwv : w = v
        · rw [if_pos hwv] at h
          simp only [matchQuery, getAssoc_append_some q extra k w hga, if_pos hwv]
          exact ih r h
        · rw [if_neg hwv] at h
          exact absurd h (by simp)
    | dynamicParam t =>
      cases hga : getAssoc q k with
      | none => simp [matchQuery, hga] at h
      | some w =>
        simp only [matchQuery, hga] at h
        cases hr : matchQuery rest q with
        | none => rw [hr] at h; simp at h
        | some r' =>
          rw [hr] at h
          simp only [Option.map_some'] at h
          simp only [matchQuery, getAssoc_append_some q extra k w hga, ih r' hr,
            Option.map_some']
          exact h

/-- C8: a statically constrained query key must be present with exactly
the declared value for the pattern to match — a missing key or a different
value makes the match fail (so the route does not apply), an exact value
lets matching proceed with the remaining constraints, and extra undeclared
query keys never break an otherwise successful match. -/
theorem static_query_constraints (cs : List (String × QueryConstraint))
    (q extra : List (String × String)) :
    (∀ k v, (k, QueryConstraint.staticValue v) ∈ cs → matchQuery cs q ≠ none →
      getAssoc q k = some v)
    ∧ (∀ k v rest, getAssoc q k = none →
      matchQuery ((k, QueryConstraint.staticValue v) :: rest) q = none)
    ∧ (∀ k v w rest, getAssoc q k = some w → w ≠ v →
      matchQuery ((k, QueryConstraint.staticValue v) :: rest) q = none)
    ∧ (∀ k v rest, getAssoc q k = some v →
      matchQuery ((k, QueryConstraint.staticValue v) :: rest) q = matchQuery rest q)
    ∧ (∀ r, matchQuery cs q = some r → matchQuery cs (q ++ extra) = some r) := by
  refine ⟨fun k v hmem hsome => matchQuery_static_mem cs q k v hmem hsome, ?_, ?_, ?_,
    fun r h => matchQuery_append_extra cs q extra r h⟩
  · intro k v rest h
    simp [matchQuery, h]
  · intro k v w rest h hwv
    simp [matchQuery, h, hwv]
  · intro k v rest h
    simp [matchQuery, h]

/-- Witness for C8: the route `?a=1&b=2` matches a query providing exactly
those values plus an extra undeclared key `x`. -/
theorem static_query_constraints_witness :
    matchQuery [("a", QueryConstraint.staticValue "1"), ("b", QueryConstraint.staticValue "2")]
      ([("a", "1"), ("b", "2")] ++ [("x", "9")]) = some [] :=
  (static_query_constraints [("a", QueryConstraint.staticValue "1"),
    ("b", QueryConstraint.staticValue "2")] [("a", "1"), ("b", "2")] [("x", "9")]).2.2.2.2 []
    (by decide)

/-! ### C3 — ordered union resolution -/

/-- C3: union validation tries literal branches for exact equality first,
then the branches left-to-right, returning the first success; on the union
`number|boolean|string`, `"false"` resolves to the boolean `false`,
`"123"` to the number `123`, and any other non-numeric string to itself as
a string. -/
theorem union_resolution (strict : Bool) (ts : TypList) (t : Typ) (v w : JsonValue)
    (s : String) :
    (tryLiterals v ts = some w → validate strict (Typ.union ts) v = some w)
    ∧ (tryLiterals v ts = none →
      validate strict (Typ.union ts) v = validateBranches strict ts v)
    ∧ (validate strict t v = some w →
      validateBranches strict (TypList.cons t ts) v = some w)
    ∧ (validate strict t v = none →
      validateBranches strict (TypList.cons t ts) v = validateBranches strict ts v)
    ∧ (validate false numBoolStr (JsonValue.str "false") = some (JsonValue.bool false))
    ∧ (validate false numBoolStr (JsonValue.str "123")
      = some (JsonValue.num (mkRat 123 1)))
    ∧ (parseNumString s = none → s ≠ "true" → s ≠ "false" →
      validate false numBoolStr (JsonValue.str s) = some (JsonValue.str s)) := by
  refine ⟨?_, ?_, ?_, ?_, by decide, by decide, ?_⟩
  · intro h
    simp [validate, h]
  · intro h
    simp [validate, h]
  · intro h
    simp [validateBranches, h]
  · intro h
    simp [validateBranches, h]
  · intro hp h1 h2
    simp [numBoolStr, validate, validateBranches, tryLiterals, hp, h1, h2]

/-- Witness for C3: the non-numeric, non-boolean string `"abc"` resolves
to itself through the `number|boolean|string` union. -/
theorem union_resolution_witness :
    validate false numBoolStr (JsonValue.str "abc") = some (JsonValue.str "abc") :=
  (union_resolution false TypList.nil Typ.number JsonValue.null JsonValue.null
    "abc").2.2.2.2.2.2 (by decide) (by decide) (by decide)

/-! ### C5 — Strict disables string-to-number coercion -/

/-- C5: validating against `Strict(Number)` succeeds exactly when the
input is already a native number — the string `"123"` is rejected while
the number `123` is accepted and passed through — whereas plain `Number`
also coerces the numeric string `"123"` to the number `123`. -/
theorem strict_number_validation (v : JsonValue) :
    ((∃ w, validate false (Typ.strict Typ.number) v = some w) ↔ (∃ q, v = JsonValue.num q))
    ∧ (∀ q, validate false (Typ.strict Typ.number) (JsonValue.num q) = some (JsonValue.num q))
    ∧ (validate false (Typ.strict Typ.number) (JsonValue.str "123") = none)
    ∧ (validate false (Typ.strict Typ.number) (JsonValue.num (mkRat 123 1))
      = some (JsonValue.num (mkRat 123 1)))
    ∧ (validate false Typ.number (JsonValue.str "123") = some (JsonValue.num (mkRat 123 1))) := by
  refine ⟨⟨?_, ?_⟩, fun q => by simp [validate], by decide, by decide, by decide⟩
  · rintro ⟨w, hw⟩
    cases v with
    | num q => exact ⟨q, rfl⟩
    | str s => simp [validate] at hw
    | bool b => simp [validate] at hw
    | null => simp [validate] at hw
  · rintro ⟨q, rfl⟩
    exact ⟨JsonValue.num q, by simp [validate]⟩

/-- Witness for C5: `Strict(Number)` rejects the string `"123"`. -/
theorem strict_number_validation_witness :
    validate false (Typ.strict Typ.number) (JsonValue.str "123") = none :=
  (strict_number_validation (JsonValue.str "123")).2.2.1

/-! ### C7 — Int truncates toward zero, Float keeps the float -/

/-- C7: `Int` applies the same coercion as `Number` and then truncates
toward zero, while `Float` keeps the coerced value: on any numeric string
the parsed value is truncated for `Int` and kept for `Float`; truncation
is toward zero on both signs, and `"123.456"` yields `123` as int and
`123.456` as float. -/
theorem int_float_truncation (q : ℚ) (s : String) :
    (validate false Typ.int (JsonValue.num q) = some (JsonValue.num (truncToZero q)))
    ∧ (∀ q', parseNumString s = some q' →
      validate false Typ.int (JsonValue.str s) = some (JsonValue.num (truncToZero q'))
      ∧ validate false Typ.float (JsonValue.str s) = some (JsonValue.num q'))
    ∧ (truncToZero (-q) = -truncToZero q)
    ∧ (truncToZero (mkRat 5 2) = mkRat 2 1)
    ∧ (truncToZero (mkRat (-5) 2) = mkRat (-2) 1)
    ∧ (validate false Typ.int (JsonValue.str "123.456") = some (JsonValue.num (mkRat 123 1)))
    ∧ (validate false Typ.float (JsonValue.str "123.456")
      = some (JsonValue.num (mkRat 123456 1000))) := by
  refine ⟨by simp [validate], ?_, ?_, by decide, by decide, by decide, by decide⟩
  · intro q' h
    exact ⟨by simp [validate, h], by simp [validate, h]⟩
  · unfold truncToZero
    rw [Rat.neg_num, Rat.neg_den, Int.neg_tdiv, Int.cast_neg]

/-- Witness for C7: applying the truncation clause to the numeric string
`"123.456"`. -/
theorem int_float_truncation_witness :
    validate false Typ.int (JsonValue.str "123.456")
      = some (JsonValue.num (truncToZero (mkRat 123456 1000))) :=
  ((int_float_truncation (mkRat 1 1) "123.456").2.1 (mkRat 123456 1000) (by decide)).1

/-! ### C6 — response merging -/

theorem getAssoc_eq_none_iff_any_false {κ α : Type} [DecidableEq κ] (l : List (κ × α)) (k : κ) :
    getAssoc l k = none ↔ l.any (fun p => decide (p.1 = k)) = false := by
  induction l with
  | nil => simp [getAssoc]
  | cons p rest ih =>
    obtain ⟨k', v'⟩ := p
    by_cases h : k' = k
    · simp [getAssoc, h]
    · simp [getAssoc, h, ih]

theorem getAssoc_filter_of_any_false {κ α : Type} [DecidableEq κ]
    (xs ys : List (κ × α)) (k : κ) (h : ys.any (fun p => decide (p.1 = k)) = false) :
    getAssoc (xs.filter (fun p => !(ys.any (fun p' => decide (p'.1 = p.1))))) k
      = getAssoc xs k := by
  induction xs with
  | nil => rfl
  | cons x xs ih =>
    by_cases hx : x.1 = k
    · simp [List.filter_cons, getAssoc, hx, h]
    · cases hp : ys.any (fun p' => decide (p'.1 = x.1)) with
      | false => simp [List.filter_cons, hp, getAssoc, hx, ih]
      | true => simp [List.filter_cons, hp, getAssoc, hx, ih]

theorem getAssoc_mergeEntries (xs ys : List (String × String)) (k : String) :
    getAssoc (mergeEntries xs ys) k = (getAssoc ys k).or (getAssoc xs k) := by
  cases h : getAssoc ys k with
  | some w =>
    unfold mergeEntries
    rw [getAssoc_append_some ys _ k w h]
    simp
  | none =>
    unfold mergeEntries
    rw [getAssoc_append_none ys _ k h]
    simpa using getAssoc_filter_of_any_false xs ys k
      ((getAssoc_eq_none_iff_any_false ys k).mp h)

/-- C6: `merge(a, b)` takes `b`'s body when `b` set one and `a`'s
otherwise, `b`'s status over `a`'s, unions the header and cookie entries
with `b`'s value winning on any key conflict, unions the vary entries, and
on the concrete tests `text('one').merge(text('two'))` has body `'two'`
while `text('two').merge(text('one'))` has body `'one'`. -/
theorem merge_semantics (a b : ResponseInfo) (k x : String) :
    ((merge a b).body = b.body.or a.body)
    ∧ ((merge a b).status = b.status.or a.status)
    ∧ (getAssoc (merge a b).headers k = (getAssoc b.headers k).or (getAssoc a.headers k))
    ∧ (getAssoc (merge a b).cookies k = (getAssoc b.cookies k).or (getAssoc a.cookies k))
    ∧ (x ∈ (merge a b).vary ↔ x ∈ a.vary ∨ x ∈ b.vary)
    ∧ ((merge (textResponse "one") (textResponse "two")).body = some (BodyValue.text "two"))
    ∧ ((merge (textResponse "two") (textResponse "one")).body = some (BodyValue.text "one")) := by
  refine ⟨rfl, rfl, getAssoc_mergeEntries a.headers b.headers k,
    getAssoc_mergeEntries a.cookies b.cookies k, List.mem_append, rfl, rfl⟩

/-- Witness for C6: merging `text('one')` with `text('two')` keeps the
second body. -/
theorem merge_semantics_witness :
    (merge (textResponse "one") (textResponse "two")).body = some (BodyValue.text "two") :=
  (merge_semantics (textResponse "one") (textResponse "two") "k" "x").2.2.2.2.2.1

/-! ### C10 — pickStruct and omitStruct partition the descriptors -/

theorem length_filter_add_length_filter_not {α : Type} (l : List α) (p : α → Bool) :
    (l.filter p).length + (l.filter (fun a => !(p a))).length = l.length := by
  induction l with
  | nil => rfl
  | cons x xs ih =>
    cases h : p x <;> simp [List.filter_cons, h] <;> omega

/-- C10: `pickStruct` keeps exactly the declared descriptors whose names
are in the key list and `omitStruct` exactly those whose names are not —
each with its descriptor value unchanged, in declaration order (the
results are sublists of the declaration), and every declared field lands
in exactly one of the two results (their lengths sum to the declaration's
length). -/
theorem pick_omit_partition (T : StructSchema) (keys : List String) (p : String × Typ) :
    ((p ∈ (pickStruct T keys).descriptors) ↔ (p ∈ T.descriptors ∧ p.1 ∈ keys))
    ∧ ((p ∈ (omitStruct T keys).descriptors) ↔ (p ∈ T.descriptors ∧ p.1 ∉ keys))
    ∧ ((pickStruct T keys).descriptors.Sublist T.descriptors)
    ∧ ((omitStruct T keys).descriptors.Sublist T.descriptors)
    ∧ ((pickStruct T keys).descriptors.length + (omitStruct T keys).descriptors.length
      = T.descriptors.length) := by
  refine ⟨?_, ?_, List.filter_sublist _, List.filter_sublist _, ?_⟩
  · simp [pickStruct, List.mem_filter]
  · simp [omitStruct, List.mem_filter]
  · exact length_filter_add_length_filter_not T.descriptors _

/-- Witness for C10: picking and omitting the key `a` from a two-field
struct splits its two descriptors. -/
theorem pick_omit_partition_witness :
    (pickStruct ⟨[("a", Typ.number), ("b", Typ.str)]⟩ ["a"]).descriptors.length
      + (omitStruct ⟨[("a", Typ.number), ("b", Typ.str)]⟩ ["a"]).descriptors.length = 2 :=
  ((pick_omit_partition ⟨[("a", Typ.number), ("b", Typ.str)]⟩ ["a"]
    ("a", Typ.number)).2.2.2.2).trans (by decide)

end Farrow
